import Mathlib

/-!
# CodeWiki — verification of the hierarchical decomposition / generation pipeline

Shallow embedding of the CodeWiki documentation pipeline
(`codewiki/src/be/documentation_generator.py`, `agent_orchestrator.py`,
`agent_tools/generate_sub_module_documentations.py`, `glossary_generator.py`).

The module tree is the nested-dictionary document
`{name: {components: [id...], children: {...}}}`, embedded as an association
list of named nodes (Python dicts preserve insertion order, so an association
list is a faithful model).  File contents are lists of characters; the
external text-generation collaborator (`call_llm` / `agent.run`) is an oracle
parameter, and the on-disk working directory is an explicit state record.
-/

namespace CodeWiki

abbrev CompId := String

/-- A node of the module tree document: `{components: [id...], children: {...}}`.
Children are an association list `name → node` in dictionary insertion order. -/
inductive MTree where
  | node (components : List CompId) (children : List (String × MTree))

abbrev Tree := List (String × MTree)

def MTree.components : MTree → List CompId
  | .node c _ => c

def MTree.children : MTree → Tree
  | .node _ ch => ch

/-- `DocumentationGenerator.is_leaf_module`: a module is a leaf when its
`children` mapping is absent or empty. -/
def is_leaf_module (module_info : MTree) : Bool :=
  module_info.children.isEmpty

/-- `DocumentationGenerator.get_processing_order`'s inner `collect_modules`:
post-order walk that, for a module with non-empty children, first emits the
children's subtrees and then the module itself; a module without children is
emitted immediately.  Entries are `(current_path, module_name)` pairs. -/
def collect_modules : Tree → List String → List (List String × String)
  | [], _ => []
  | (module_name, MTree.node _ children) :: rest, path =>
    let current_path := path ++ [module_name]
    (if !children.isEmpty then
      collect_modules children current_path ++ [(current_path, module_name)]
    else
      [(current_path, module_name)]) ++ collect_modules rest path

/-- `DocumentationGenerator.get_processing_order`. -/
def get_processing_order (module_tree : Tree) (parent_path : List String) :
    List (List String × String) :=
  collect_modules module_tree parent_path

/-- The nested lookup performed by the driver loop:
`module_info = module_tree; for part in path: module_info = module_info[part];
 if not last: module_info = module_info["children"]`.
A missing key is a Python `KeyError`, modelled as `none`. -/
def getAtPath : Tree → List String → Option MTree
  | _, [] => none
  | t, [p] => t.lookup p
  | t, p :: ps =>
    match t.lookup p with
    | some (MTree.node _ ch) => getAtPath ch ps
    | none => none

/-- Sibling-name uniqueness down the whole tree (spec §3 invariant: every node
name is unique among its own parent's children). -/
def treeWF : Tree → Bool
  | [] => true
  | (k, MTree.node _ ch) :: rest =>
    treeWF ch && treeWF rest && !((rest.map Prod.fst).contains k)

/-- There is a node at (non-empty) path `p` in the tree. -/
def isNodePath : Tree → List String → Bool
  | _, [] => false
  | t, [k] => (t.lookup k).isSome
  | t, k :: ks =>
    match t.lookup k with
    | some (MTree.node _ ch) => isNodePath ch ks
    | none => false

/-! ## Text model

Responses from the text-generation collaborator are Python `str` values,
modelled as `List Char`.  We re-implement the exact Python primitives the
source uses: substring membership (`in`), `str.split(sep)` indexing, and
`str.strip()`. -/

abbrev Text := List Char

/-- Split at the first occurrence of (non-empty) `sep`: returns
`some (pre, post)` with the scanned input `= pre ++ sep ++ post` and `pre`
shortest, or `none` when `sep` does not occur. -/
def findSplit (sep : Text) : Text → Text → Option (Text × Text)
  | [], acc => if sep.isEmpty then some (acc, []) else none
  | c :: rest, acc =>
    if sep.isPrefixOf (c :: rest) then some (acc, (c :: rest).drop sep.length)
    else findSplit sep rest (acc ++ [c])

/-- Python `sep in s` (for the non-empty tag separators used by the source). -/
def pyContains (sep s : Text) : Bool :=
  (findSplit sep s []).isSome

/-- Python `s.split(sep)[1]` when `sep in s`: the segment between the first
and second occurrence of `sep` (to the end when `sep` occurs once).  When
`sep` is absent the source never evaluates this; we return `s`. -/
def segAfterFirst (sep s : Text) : Text :=
  match findSplit sep s [] with
  | some (_, post) =>
    match findSplit sep post [] with
    | some (a, _) => a
    | none => post
  | none => s

/-- Python `s.split(sep)[0]`: everything before the first occurrence of `sep`
(`s` itself when `sep` is absent). -/
def beforeFirst (sep s : Text) : Text :=
  match findSplit sep s [] with
  | some (a, _) => a
  | none => s

/-- Python `s.strip()` (whitespace from both ends). -/
def pyStrip (s : Text) : Text :=
  ((s.dropWhile Char.isWhitespace).reverse.dropWhile Char.isWhitespace).reverse

def ovOpen : Text := "<OVERVIEW>".toList
def ovClose : Text := "</OVERVIEW>".toList

/-- `parent_docs.split("<OVERVIEW>")[1].split("</OVERVIEW>")[0].strip()`. -/
def extractOverview (s : Text) : Text :=
  pyStrip (beforeFirst ovClose (segAfterFirst ovOpen s))

/-! ## Working-directory state and the Generation Driver

The driver touches the file system through: existence checks on `.md`
artifacts, `save_text`, `os.rename`, and loading/saving the two tree
documents `module_tree.json` / `first_module_tree.json`.  The state records
the `.md` files (name → content) and the contents of the two tree documents.
Each invocation of the text-generation collaborator (an `agent.run` for a
leaf, a `call_llm` for a parent/root overview) increments `genCalls` and
appends one event to `trace`. -/

/-- `OVERVIEW_FILENAME` from `codewiki.src.config` (the metadata block in
`documentation_generator.py` lists it as `overview.md`). -/
def overviewFilename : String := "overview.md"

inductive GenEvent where
  | leafGen (name : String) (coreIds : List CompId)
  | parentGen (name : String)
  | rootGen (name : String)
deriving DecidableEq

def GenEvent.isRoot : GenEvent → Bool
  | .rootGen _ => true
  | _ => false

structure GenState where
  /-- `.md` artifact files in the working directory, name → content. -/
  mdFiles : List (String × Text)
  /-- Content of `module_tree.json` (the working tree). -/
  moduleTreeFile : Tree
  /-- Content of `first_module_tree.json` (the planning snapshot). -/
  firstTreeFile : Tree
  /-- Number of text-generation invocations made so far. -/
  genCalls : Nat
  /-- One event per text-generation invocation, in order. -/
  trace : List GenEvent

def fsExists (fs : List (String × Text)) (name : String) : Bool :=
  (fs.lookup name).isSome

def fsWrite (fs : List (String × Text)) (name : String) (content : Text) :
    List (String × Text) :=
  (name, content) :: fs.filter (fun p => !(p.1 == name))

def fsWriteAll (fs : List (String × Text)) (files : List (String × Text)) :
    List (String × Text) :=
  files.foldl (fun fs p => fsWrite fs p.1 p.2) fs

def fsErase (fs : List (String × Text)) (name : String) : List (String × Text) :=
  fs.filter (fun p => !(p.1 == name))

/-- `os.rename src dst` (destination overwritten when present). -/
def fsRename (fs : List (String × Text)) (src dst : String) : List (String × Text) :=
  match fs.lookup src with
  | some content => fsWrite (fsErase fs src) dst content
  | none => fs

/-- Result of a successful `agent.run` in `AgentOrchestrator.process_module`:
the (possibly sub-module-spawner-extended) `deps.module_tree`, and the `.md`
files the agent wrote through its editor tool during the run. -/
structure AgentResult where
  tree : Tree
  files : List (String × Text)

/-- Outcome of `agent.run`, keyed by module name, core component ids, and
module path; `none` models an exception escaping the run. -/
abbrev AgentOracle := String → List CompId → List String → Option AgentResult

/-- Outcome of `call_llm` for a parent/root overview prompt, keyed by the
module name the prompt is built for; `none` models a raised transient error. -/
abbrev LlmOracle := String → Option Text

/-- `AgentOrchestrator.process_module`.  Loads `module_tree.json`, creates the
agent (pure construction — no generation call), short-circuits when the
overview artifact or this module's artifact already exists, otherwise runs
the agent (one generation call) and persists the updated tree.  The
supplementary-file filtering only feeds the prompt and is absorbed into the
oracle.  An exception from `agent.run` is logged and re-raised
(`Except.error` carrying the state at raise time). -/
def process_module (agentOut : AgentOracle) (module_name : String)
    (core_component_ids : List CompId) (module_path : List String)
    (st : GenState) : Except GenState (Tree × GenState) :=
  let module_tree := st.moduleTreeFile
  if fsExists st.mdFiles overviewFilename then .ok (module_tree, st)
  else if fsExists st.mdFiles (module_name ++ ".md") then .ok (module_tree, st)
  else
    let st1 : GenState :=
      { st with genCalls := st.genCalls + 1,
                trace := st.trace ++ [GenEvent.leafGen module_name core_component_ids] }
    match agentOut module_name core_component_ids module_path with
    | none => .error st1
    | some r =>
      .ok (r.tree, { st1 with mdFiles := fsWriteAll st1.mdFiles r.files,
                              moduleTreeFile := r.tree })

/-- `DocumentationGenerator.generate_parent_module_docs`.  Loads
`module_tree.json`, short-circuits when the overview artifact or this
module's artifact exists, otherwise issues the overview `call_llm` request
(prompt construction from `build_overview_structure` only feeds the oracle):
an empty response is an error; a response missing the `<OVERVIEW>` tags falls
back to the stripped raw text (warning only); an empty parsed content is an
error; otherwise the content is saved as the artifact. -/
def generate_parent_module_docs (llmOut : LlmOracle) (repo_name : String)
    (module_path : List String) (st : GenState) : Except GenState (Tree × GenState) :=
  let module_name := module_path.getLastD repo_name
  let module_tree := st.moduleTreeFile
  if fsExists st.mdFiles overviewFilename then .ok (module_tree, st)
  else
    let parent_docs_path :=
      (if 1 ≤ module_path.length then module_name else "overview") ++ ".md"
    if fsExists st.mdFiles parent_docs_path then .ok (module_tree, st)
    else
      let st1 : GenState :=
        { st with genCalls := st.genCalls + 1,
                  trace := st.trace ++
                    [if module_path.isEmpty then GenEvent.rootGen module_name
                     else GenEvent.parentGen module_name] }
      match llmOut module_name with
      | none => .error st1
      | some parent_docs =>
        if parent_docs.isEmpty then .error st1
        else
          let parent_content :=
            if pyContains ovOpen parent_docs && pyContains ovClose parent_docs then
              extractOverview parent_docs
            else pyStrip parent_docs
          if parent_content.isEmpty then .error st1
          else
            .ok (module_tree,
                 { st1 with mdFiles := fsWrite st1.mdFiles parent_docs_path parent_content })

/-- `"/".join(module_path)`. -/
def moduleKey (module_path : List String) : String :=
  String.intercalate "/" module_path

/-- In-memory loop state of `generate_module_documentation`:
`final_module_tree`, the `processed_modules` set, and the on-disk state. -/
structure LoopState where
  finalTree : Tree
  processed : List String
  st : GenState

/-- One iteration of the driver's `for module_path, module_name in
processing_order` loop.  The whole body is inside `try/except`: a missing
path in the working tree (`KeyError`), or an exception from the processing
step, is caught and logged and the loop continues with the next entry; only
a successful step updates `final_module_tree` and `processed_modules`. -/
def loopStep (agentOut : AgentOracle) (llmOut : LlmOracle) (repo_name : String)
    (tree0 : Tree) (entry : List String × String) (ls : LoopState) : LoopState :=
  match getAtPath tree0 entry.1 with
  | none => ls
  | some module_info =>
    let key := moduleKey entry.1
    if ls.processed.contains key then ls
    else
      match (if is_leaf_module module_info then
               process_module agentOut entry.2 module_info.components entry.1 ls.st
             else
               generate_parent_module_docs llmOut repo_name entry.1 ls.st) with
      | .ok (t, st') => ⟨t, ls.processed ++ [key], st'⟩
      | .error st' => ⟨ls.finalTree, ls.processed, st'⟩

/-- The driver's per-module loop over the processing order. -/
def processLoop (agentOut : AgentOracle) (llmOut : LlmOracle) (repo_name : String)
    (tree0 : Tree) (order : List (List String × String)) (ls : LoopState) : LoopState :=
  order.foldl (fun ls e => loopStep agentOut llmOut repo_name tree0 e ls) ls

/-- `DocumentationGenerator.generate_module_documentation`.  Loads both tree
documents, plans the order from the snapshot, and:
* non-empty working tree — runs the per-module loop (each step's failure
  caught), then generates the repository overview (`module_path = []`) with
  no surrounding handler, so its failure propagates;
* empty working tree — processes the whole repository as one module named
  after the repository, saves the resulting tree, and renames
  `{repo_name}.md` to the overview artifact when it exists.
The source returns the working-directory path; the model returns the final
tree together with the resulting state. -/
def generate_module_documentation (agentOut : AgentOracle) (llmOut : LlmOracle)
    (repo_name : String) (leaf_nodes : List CompId) (st0 : GenState) :
    Except GenState (Tree × GenState) :=
  let module_tree := st0.moduleTreeFile
  let first_module_tree := st0.firstTreeFile
  let processing_order := get_processing_order first_module_tree []
  if module_tree.length > 0 then
    let ls := processLoop agentOut llmOut repo_name module_tree processing_order
      ⟨module_tree, [], st0⟩
    generate_parent_module_docs llmOut repo_name [] ls.st
  else
    match process_module agentOut repo_name leaf_nodes [] st0 with
    | .error st' => .error st'
    | .ok (t, st') =>
      let st2 : GenState := { st' with moduleTreeFile := t }
      let repo_md := repo_name ++ ".md"
      if fsExists st2.mdFiles repo_md then
        .ok (t, { st2 with mdFiles := fsRename st2.mdFiles repo_md overviewFilename })
      else .ok (t, st2)

/-! ## Sub-Module Spawner
(`agent_tools/generate_sub_module_documentations.py`)

The tool shares one mutable `CodeWikiDeps` record with its caller; we thread
the mutated fields (`path_to_current_module`, `current_depth`,
`current_module_name`, `module_tree`) as an explicit state. -/

/-- A code component as seen by the spawner / complexity check: only its
source-file location matters here. -/
structure Component where
  relative_path : String
deriving DecidableEq

/-- Modelled from the spec: `is_complex_module` from `codewiki.src.be.utils`
(that file is not under `src/`; only its callers and tests are).  Per spec
§4.4, a module is complex iff its components span more than one distinct
source file. -/
def is_complex_module (components : List (String × Component))
    (core_component_ids : List CompId) : Bool :=
  (((core_component_ids.filterMap (fun cid => components.lookup cid)).map
      Component.relative_path).dedup).length > 1

/-- The sub-module classification condition at
`generate_sub_module_documentations.py:49`:
`is_complex_module(...) and current_depth < max_depth and
 num_tokens >= config.max_token_per_leaf_module`.
`num_tokens` is `count_tokens(format_potential_core_components(...)[-1])`,
an externally computed size passed in here. -/
def subModuleIsComplex (components : List (String × Component))
    (core_component_ids : List CompId) (current_depth max_depth : Nat)
    (num_tokens max_token_per_leaf_module : Nat) : Bool :=
  is_complex_module components core_component_ids &&
    decide (current_depth < max_depth) &&
    decide (num_tokens ≥ max_token_per_leaf_module)

/-- Python `dict` assignment `d[k] = v` on an association list: replace in
place when the key exists, append otherwise. -/
def dictSet : Tree → String → MTree → Tree
  | [], k, v => [(k, v)]
  | (k', v') :: rest, k, v =>
    if k' == k then (k, v) :: rest else (k', v') :: dictSet rest k v

/-- The tool's first loop: `value[sub_module_name] = {"components": ids,
"children": {}}` for every declared spec, at the already-walked `value`. -/
def addSpecs (ch : Tree) (specs : List (String × List CompId)) : Tree :=
  specs.foldl (fun ch p => dictSet ch p.1 (MTree.node p.2 [])) ch

/-- The walk `value = deps.module_tree; for key in path: value =
value[key]["children"]` followed by a mutation of `value`, rebuilt
functionally.  A missing key is a Python `KeyError` (`none`). -/
def updateChildrenAt : Tree → List String → (Tree → Tree) → Option Tree
  | t, [], f => some (f t)
  | [], _ :: _, _ => none
  | (k', MTree.node c ch) :: rest, k :: ks, f =>
    if k' == k then
      (updateChildrenAt ch ks f).map (fun ch' => (k', MTree.node c ch') :: rest)
    else
      (updateChildrenAt rest (k :: ks) f).map (fun t' => (k', MTree.node c ch) :: t')

/-- The mutable fields of `CodeWikiDeps` touched by the spawner. -/
structure SubState where
  path_to_current_module : List String
  current_depth : Nat
  current_module_name : String
  module_tree : Tree

/-- Outcome of `sub_agent.run` for a declared sub-module, keyed by its name
and by whether it was built as a complex agent (with the spawner tool) or a
leaf agent.  The run shares the mutable `CodeWikiDeps` with its caller, so it
is handed the deps-state as of its invocation (the new frame already
pushed).  A run that returns (`.ok tree'`) has had every nested spawner
invocation return too, and each of those popped its own frame on its success
path, so of the shared fields only the `module_tree` mutations persist: the
result is the tree as the run left it.  A run that raises (`.error stE`)
escapes with the shared deps exactly as they were at raise time: `stE` may
carry extra path/depth frames (and tree mutations) leaked by nested spawner
invocations, whose pops are skipped on exceptions just like the outer
one. -/
abbrev SubAgentOracle := String → Bool → SubState → Except SubState Tree

/-- The per-spec loop of `generate_sub_module_documentation`: classify the
sub-module (line 49), push name/depth onto the shared deps, run the
sub-agent, and pop name/depth — the pop is written after `await
sub_agent.run(...)` with no `finally`, so an exception escapes with the
deps exactly as the failing run left them (the pushed frame, and anything a
nested spawner leaked, still in place). -/
def subSpecsLoop (subRun : SubAgentOracle) (components : List (String × Component))
    (tokensOf : List CompId → Nat) (max_depth max_token_per_leaf_module : Nat) :
    List (String × List CompId) → SubState → Except SubState SubState
  | [], st => .ok st
  | (sub_module_name, core_component_ids) :: rest, st =>
    let complex := subModuleIsComplex components core_component_ids
      st.current_depth max_depth (tokensOf core_component_ids) max_token_per_leaf_module
    let st1 : SubState :=
      { st with current_module_name := sub_module_name,
                path_to_current_module := st.path_to_current_module ++ [sub_module_name],
                current_depth := st.current_depth + 1 }
    match subRun sub_module_name complex st1 with
    | .error stE => .error stE
    | .ok tree' =>
      let st2 : SubState :=
        { st1 with module_tree := tree',
                   path_to_current_module := st1.path_to_current_module.dropLast,
                   current_depth := st1.current_depth - 1 }
      subSpecsLoop subRun components tokensOf max_depth max_token_per_leaf_module rest st2

/-- `generate_sub_module_documentation`: record every declared sub-module
into the working tree under the current path, then process the specs one by
one (sub-agent failures propagate uncaught), restore
`current_module_name`, and return the confirmation string. -/
def generate_sub_module_documentation (subRun : SubAgentOracle)
    (components : List (String × Component)) (tokensOf : List CompId → Nat)
    (max_depth max_token_per_leaf_module : Nat)
    (sub_module_specs : List (String × List CompId)) (st : SubState) :
    Except SubState (String × SubState) :=
  let previous_module_name := st.current_module_name
  match updateChildrenAt st.module_tree st.path_to_current_module
      (fun ch => addSpecs ch sub_module_specs) with
  | none => .error st
  | some tree' =>
    match subSpecsLoop subRun components tokensOf max_depth max_token_per_leaf_module
        sub_module_specs { st with module_tree := tree' } with
    | .error st' => .error st'
    | .ok st' =>
      .ok ("Generate successfully. Documentations: " ++
             String.intercalate ", " (sub_module_specs.map (fun p => p.1 ++ ".md")) ++
             " are saved in the working directory.",
           { st' with current_module_name := previous_module_name })

/-! ## Clustering Engine entry (spec-modelled)
`cluster_modules` lives in `codewiki.src.be.cluster_modules`, which is not
under `src/` — only its tests (`test_projection_clustering.py`) and callers
are.  We model the part the claims need from spec §4.1. -/

/-- The projection injection points of spec §4.1 / §6. -/
structure ProjectionCfg where
  saved_grouping : Option Tree

/-- Modelled from the spec: `cluster_modules` from
`codewiki.src.be.cluster_modules` (file not under `src/`).  Spec §4.1: if a
precomputed grouping is supplied, return it verbatim with no text-generation
calls; else if the approximate token size of the component set is under the
budget, return the empty tree with no calls; otherwise group via
text-generation requests (recursively), abstracted here as the oracle
`llmCluster`.  The second result component counts text-generation calls. -/
def cluster_modules (llmCluster : Unit → Tree × Nat) (num_tokens budget : Nat)
    (projection : Option ProjectionCfg) : Tree × Nat :=
  match projection with
  | some p =>
    match p.saved_grouping with
    | some g => (g, 0)
    | none => if num_tokens < budget then ([], 0) else llmCluster ()
  | none => if num_tokens < budget then ([], 0) else llmCluster ()

/-! ## Supplementary-material filter (spec-modelled)
`filter_supplementary_for_module` lives in `codewiki.src.be.utils`, which is
not under `src/` — only its tests (`test_supplementary_files.py`) and callers
are.  We model it from spec §6, representing a relative path as its list of
segments (directories then filename). -/

abbrev RelPath := List String

/-- The directory part of a relative path. -/
def dirOf (p : RelPath) : RelPath := p.dropLast

/-- The file sits at the repository root: no directory part. -/
def atRoot (p : RelPath) : Bool := (dirOf p).isEmpty

/-- Two paths share a directory-path prefix: one directory path is an initial
segment of the other (spec §4.4 calls this "path-subtree matching"). -/
def sharesDirWith (p c : RelPath) : Bool :=
  (dirOf p).isPrefixOf (dirOf c) || (dirOf c).isPrefixOf (dirOf p)

/-- Modelled from the spec: `filter_supplementary_for_module` from
`codewiki.src.be.utils` (file not under `src/`).  Spec §6: given the
"all supplementary files" mapping and a module's component relative paths,
include a supplementary file if it sits at the root, or shares a path prefix
with at least one of the module's component paths. -/
def filter_supplementary_for_module (all_files : List (RelPath × Text))
    (module_component_paths : List RelPath) : List (RelPath × Text) :=
  all_files.filter (fun f =>
    atRoot f.1 || module_component_paths.any (fun c => sharesDirWith f.1 c))

/-! ## Glossary (`glossary_generator.py`)

`GlossaryEntry` / `Glossary` and their `to_dict` / `from_dict`.  The JSON
value a serialized entry field can take is modelled by `GVal`; `confidence`
is a Python float, which the round trip moves but never computes with, so it
is embedded as an arbitrary type parameter `α`. -/

inductive GVal (α : Type) where
  | str (s : String)
  | num (x : α)
  | arr (xs : List String)

structure GlossaryEntry (α : Type) where
  identifier : String
  business_name : String
  definition : String
  category : String
  confidence : α
  source_files : List String
  component_ids : List String

structure Glossary (α : Type) where
  entries : List (String × GlossaryEntry α)

def GVal.asStr : GVal α → Option String
  | .str s => some s
  | _ => none

def GVal.asNum : GVal α → Option α
  | .num x => some x
  | _ => none

def GVal.asArr : GVal α → Option (List String)
  | .arr xs => some xs
  | _ => none

/-- The serialized form of one entry (`Glossary.to_dict`, inner dict). -/
def entryToDict (v : GlossaryEntry α) : List (String × GVal α) :=
  [("identifier", .str v.identifier),
   ("business_name", .str v.business_name),
   ("definition", .str v.definition),
   ("category", .str v.category),
   ("confidence", .num v.confidence),
   ("source_files", .arr v.source_files),
   ("component_ids", .arr v.component_ids)]

/-- `Glossary.to_dict`: `{"entries": {k: {...} for k, v in entries}}`. -/
def Glossary.to_dict (g : Glossary α) : List (String × List (String × GVal α)) :=
  g.entries.map (fun p => (p.1, entryToDict p.2))

/-- `Glossary.from_dict` over one serialized entry: required-key accesses
`v["identifier"]`, `v["business_name"]`, `v["definition"]`, `v["category"]`,
`v["confidence"]` (a `KeyError`/type mismatch is `none`) and defaulted
accesses `v.get("source_files", [])`, `v.get("component_ids", [])`. -/
def entryFromDict (d : List (String × GVal α)) : Option (GlossaryEntry α) := do
  let identifier ← (← d.lookup "identifier").asStr
  let business_name ← (← d.lookup "business_name").asStr
  let definition ← (← d.lookup "definition").asStr
  let category ← (← d.lookup "category").asStr
  let confidence ← (← d.lookup "confidence").asNum
  let source_files := ((d.lookup "source_files").bind GVal.asArr).getD []
  let component_ids := ((d.lookup "component_ids").bind GVal.asArr).getD []
  pure ⟨identifier, business_name, definition, category, confidence,
        source_files, component_ids⟩

/-- The `for k, v in data.get("entries", {}).items()` loop of
`Glossary.from_dict`: entries are rebuilt one by one, and the first missing
required key (`KeyError`) aborts the whole deserialization. -/
def entriesFromDict : List (String × List (String × GVal α)) →
    Option (List (String × GlossaryEntry α))
  | [] => some []
  | (k, v) :: rest => do
    let e ← entryFromDict v
    let es ← entriesFromDict rest
    pure ((k, e) :: es)

/-- `Glossary.from_dict` (applied to the `"entries"` mapping of the
serialized document). -/
def Glossary.from_dict (data : List (String × List (String × GVal α))) :
    Option (Glossary α) :=
  (entriesFromDict data).map Glossary.mk

/-! ## Structural lemmas about the processing order -/

/-- Every entry the planner emits for tree `t` under `path` lies strictly
below `path`, and its first step below `path` is a key of `t`. -/
theorem collect_descend :
    ∀ (t : Tree) (path : List String) (e : List String × String),
      e ∈ collect_modules t path →
      ∃ k q, e.1 = path ++ k :: q ∧ k ∈ t.map Prod.fst := by
  intro t path
  induction t, path using collect_modules.induct with
  | case1 path => intro e he; simp [collect_modules] at he
  | case2 module_name components children rest path cur ih1 ih2 =>
    intro e he
    rw [collect_modules] at he
    rcases List.mem_append.mp he with hG | hR
    · cases hch : children.isEmpty with
      | true =>
        rw [hch] at hG
        simp only [Bool.not_true, Bool.false_eq_true, if_false] at hG
        rcases List.mem_singleton.mp hG with rfl
        exact ⟨module_name, [], by simp [cur], by simp⟩
      | false =>
        rw [hch] at hG
        simp only [Bool.not_false, if_true] at hG
        rcases List.mem_append.mp hG with hsub | hself
        · obtain ⟨k, q, hq, _⟩ := ih1 e hsub
          refine ⟨module_name, k :: q, ?_, by simp⟩
          rw [hq]; simp [cur]
        · rcases List.mem_singleton.mp hself with rfl
          exact ⟨module_name, [], by simp [cur], by simp⟩
    · obtain ⟨k, q, hq, hk⟩ := ih2 e hR
      exact ⟨k, q, hq, by simp [hk]⟩

/-- Post-order: under sibling-name uniqueness, no emitted entry is a proper
ancestor (strict path-prefix) of any later entry. -/
theorem collect_pairwise :
    ∀ (t : Tree) (path : List String), treeWF t = true →
      List.Pairwise (fun a b => ¬(a.1 ≠ b.1 ∧ a.1 <+: b.1)) (collect_modules t path) := by
  intro t path
  induction t, path using collect_modules.induct with
  | case1 path => intro _; simp [collect_modules]
  | case2 module_name components children rest path cur ih1 ih2 =>
    intro hwf
    rw [treeWF] at hwf
    simp only [Bool.and_eq_true, Bool.not_eq_true'] at hwf
    obtain ⟨⟨hwc, hwr⟩, hnk⟩ := hwf
    have hnk' : module_name ∉ rest.map Prod.fst := by
      simpa using hnk
    rw [collect_modules]
    apply List.pairwise_append.mpr
    refine ⟨?_, ih2 hwr, ?_⟩
    · cases hch : children.isEmpty with
      | true => simp [hch]
      | false =>
        simp only [hch, Bool.not_false, if_true]
        apply List.pairwise_append.mpr
        refine ⟨ih1 hwc, by simp, ?_⟩
        intro a ha b hb
        rcases List.mem_singleton.mp hb with rfl
        obtain ⟨k, q, hq, _⟩ := collect_descend children cur a ha
        rintro ⟨hne, hpre⟩
        have hlen := hpre.length_le
        rw [hq] at hlen
        simp [cur] at hlen
    · intro a ha b hb
      obtain ⟨kb, qb, hqb, hkb⟩ := collect_descend rest path b hb
      have hA : ∃ ta, a.1 = path ++ module_name :: ta := by
        cases hch : children.isEmpty with
        | true =>
          rw [hch] at ha
          simp only [Bool.not_true, Bool.false_eq_true, if_false] at ha
          rcases List.mem_singleton.mp ha with rfl
          exact ⟨[], by simp [cur]⟩
        | false =>
          rw [hch] at ha
          simp only [Bool.not_false, if_true] at ha
          rcases List.mem_append.mp ha with hsub | hself
          · obtain ⟨k, q, hq, _⟩ := collect_descend children cur a hsub
            exact ⟨k :: q, by rw [hq]; simp [cur]⟩
          · rcases List.mem_singleton.mp hself with rfl
            exact ⟨[], by simp [cur]⟩
      obtain ⟨ta, hta⟩ := hA
      rintro ⟨hne, hpre⟩
      rw [hta, hqb] at hpre
      have h2 : (module_name :: ta) <+: (kb :: qb) :=
        (List.prefix_append_right_inj path).mp hpre
      have h3 := (List.cons_prefix_cons.mp h2).1
      exact hnk' (h3 ▸ hkb)

/-- A module looked up among the keys of `t` is emitted. -/
theorem collect_mem_of_lookup :
    ∀ (t : Tree) (k : String) (info : MTree) (base : List String),
      t.lookup k = some info →
      (base ++ [k], k) ∈ collect_modules t base := by
  intro t
  induction t with
  | nil => intro k info base h; simp [List.lookup] at h
  | cons hd rest ih =>
    intro k info base h
    obtain ⟨k', info'⟩ := hd
    obtain ⟨c, ch⟩ := info'
    rw [List.lookup] at h
    cases hbeq : (k == k') with
    | true =>
      have hk : k = k' := by simpa using hbeq
      subst hk
      rw [collect_modules]
      apply List.mem_append.mpr
      left
      cases hch : ch.isEmpty with
      | true => simp [hch]
      | false => simp [hch]
    | false =>
      rw [hbeq] at h
      simp only at h
      rw [collect_modules]
      exact List.mem_append.mpr (Or.inr (ih k info base h))

/-- Emissions for the subtree of a key of `t` are emissions for `t`. -/
theorem collect_mem_sub :
    ∀ (t : Tree) (k : String) (c : List CompId) (ch : Tree) (base : List String),
      t.lookup k = some (MTree.node c ch) →
      ∀ x, x ∈ collect_modules ch (base ++ [k]) → x ∈ collect_modules t base := by
  intro t
  induction t with
  | nil => intro k c ch base h; simp [List.lookup] at h
  | cons hd rest ih =>
    intro k c ch base h x hx
    obtain ⟨k', info'⟩ := hd
    obtain ⟨c', ch'⟩ := info'
    rw [List.lookup] at h
    cases hbeq : (k == k') with
    | true =>
      have hk : k = k' := by simpa using hbeq
      subst hk
      rw [hbeq] at h
      simp only [Option.some.injEq] at h
      have hinfo : MTree.node c' ch' = MTree.node c ch := h
      have hch : ch' = ch := by injection hinfo
      subst hch
      rw [collect_modules]
      apply List.mem_append.mpr
      left
      cases hche : ch'.isEmpty with
      | true =>
        rw [List.isEmpty_iff.mp hche] at hx
        simp [collect_modules] at hx
      | false =>
        simp only [hche, Bool.not_false, if_true]
        exact List.mem_append.mpr (Or.inl hx)
    | false =>
      rw [hbeq] at h
      simp only at h
      rw [collect_modules]
      exact List.mem_append.mpr (Or.inr (ih k c ch base h x hx))

/-- Completeness: every node of the tree is emitted, under the path that
reaches it, carrying its own name. -/
theorem collect_complete :
    ∀ (p : List String) (t : Tree) (base : List String),
      isNodePath t p = true →
      ∃ q k, p = q ++ [k] ∧ (base ++ p, k) ∈ collect_modules t base := by
  intro p
  induction p with
  | nil => intro t base h; rw [isNodePath] at h; cases h
  | cons k ks ih =>
    intro t base h
    cases ks with
    | nil =>
      rw [isNodePath] at h
      obtain ⟨info, hinfo⟩ := Option.isSome_iff_exists.mp h
      exact ⟨[], k, rfl, collect_mem_of_lookup t k info base hinfo⟩
    | cons k2 ks' =>
      simp only [isNodePath] at h
      cases hlk : t.lookup k with
      | none => rw [hlk] at h; cases h
      | some info =>
        obtain ⟨c, ch⟩ := info
        rw [hlk] at h
        simp only at h
        obtain ⟨q', k0, hq', hmem⟩ := ih ch (base ++ [k]) h
        refine ⟨k :: q', k0, by rw [hq', List.cons_append], ?_⟩
        have := collect_mem_sub t k c ch base hlk _ hmem
        rw [hq'] at this ⊢
        simpa [List.append_assoc] using this

/-- Emitted paths are never empty. -/
theorem collect_paths_ne_nil (t : Tree) (path : List String)
    (e : List String × String) (he : e ∈ collect_modules t path) : e.1 ≠ [] := by
  obtain ⟨k, q, hq, _⟩ := collect_descend t path e he
  rw [hq]
  simp

/-! ## Trace lemmas for the Generation Driver -/

/-- A successful `process_module` leaves the trace unchanged (short-circuit)
or appends exactly its `leafGen` event. -/
theorem process_module_ok_trace (agentOut : AgentOracle) (module_name : String)
    (core_component_ids : List CompId) (module_path : List String) (st : GenState)
    (t : Tree) (st' : GenState)
    (h : process_module agentOut module_name core_component_ids module_path st =
      .ok (t, st')) :
    st'.trace = st.trace ∨
    st'.trace = st.trace ++ [GenEvent.leafGen module_name core_component_ids] := by
  rw [process_module] at h
  repeat' split at h
  all_goals cases h
  all_goals simp_all

/-- A failing `process_module` has appended exactly its `leafGen` event. -/
theorem process_module_err_trace (agentOut : AgentOracle) (module_name : String)
    (core_component_ids : List CompId) (module_path : List String) (st : GenState)
    (st' : GenState)
    (h : process_module agentOut module_name core_component_ids module_path st =
      .error st') :
    st'.trace = st.trace ++ [GenEvent.leafGen module_name core_component_ids] := by
  rw [process_module] at h
  repeat' split at h
  all_goals cases h
  all_goals simp_all

/-- A successful `generate_parent_module_docs` leaves the trace unchanged
(short-circuit) or appends exactly its overview event: `rootGen` for the
empty path (repository overview), `parentGen` otherwise. -/
theorem parent_docs_ok_trace (llmOut : LlmOracle) (repo_name : String)
    (module_path : List String) (st : GenState) (t : Tree) (st' : GenState)
    (h : generate_parent_module_docs llmOut repo_name module_path st = .ok (t, st')) :
    st'.trace = st.trace ∨
    st'.trace = st.trace ++
      [if module_path.isEmpty then GenEvent.rootGen (module_path.getLastD repo_name)
       else GenEvent.parentGen (module_path.getLastD repo_name)] := by
  simp only [generate_parent_module_docs] at h
  repeat' split at h
  all_goals cases h
  all_goals simp_all

/-- A failing `generate_parent_module_docs` has appended exactly its overview
event. -/
theorem parent_docs_err_trace (llmOut : LlmOracle) (repo_name : String)
    (module_path : List String) (st : GenState) (st' : GenState)
    (h : generate_parent_module_docs llmOut repo_name module_path st = .error st') :
    st'.trace = st.trace ++
      [if module_path.isEmpty then GenEvent.rootGen (module_path.getLastD repo_name)
       else GenEvent.parentGen (module_path.getLastD repo_name)] := by
  simp only [generate_parent_module_docs] at h
  repeat' split at h
  all_goals cases h
  all_goals simp_all

/-- One driver-loop iteration only appends non-root events (its entry's path
is non-empty, so a parent step logs `parentGen`, never `rootGen`). -/
theorem loopStep_trace_events (agentOut : AgentOracle) (llmOut : LlmOracle)
    (repo_name : String) (tree0 : Tree) (entry : List String × String)
    (ls : LoopState) (hpath : entry.1 ≠ []) :
    ∃ es, (loopStep agentOut llmOut repo_name tree0 entry ls).st.trace =
      ls.st.trace ++ es ∧ ∀ e ∈ es, e.isRoot = false := by
  have hemp : entry.1.isEmpty = false := by
    cases he : entry.1 with
    | nil => exact absurd he hpath
    | cons a l => rfl
  rw [loopStep]
  split
  · exact ⟨[], by simp, by simp⟩
  · rename_i info hlk
    split
    · rename_i t st' heq
      by_cases hmem : moduleKey entry.1 ∈ ls.processed
      · exact ⟨[], by simp [hmem], by simp⟩
      · cases hl : is_leaf_module info with
        | true =>
          rw [hl] at heq
          simp only [if_true] at heq
          rcases process_module_ok_trace agentOut entry.2 info.components entry.1
              ls.st t st' heq with hcase | hcase
          · exact ⟨[], by simp [hmem]; simpa using hcase, by simp⟩
          · exact ⟨[GenEvent.leafGen entry.2 info.components],
              by simp [hmem]; simpa using hcase, by simp [GenEvent.isRoot]⟩
        | false =>
          rw [hl] at heq
          simp only [Bool.false_eq_true, if_false] at heq
          rcases parent_docs_ok_trace llmOut repo_name entry.1 ls.st t st' heq
            with hcase | hcase
          · exact ⟨[], by simp [hmem]; simpa using hcase, by simp⟩
          · rw [hemp] at hcase
            simp only [Bool.false_eq_true, if_false] at hcase
            exact ⟨[GenEvent.parentGen (entry.1.getLastD repo_name)],
              by simp [hmem]; simpa using hcase, by simp [GenEvent.isRoot]⟩
    · rename_i st' heq
      by_cases hmem : moduleKey entry.1 ∈ ls.processed
      · exact ⟨[], by simp [hmem], by simp⟩
      · cases hl : is_leaf_module info with
        | true =>
          rw [hl] at heq
          simp only [if_true] at heq
          have hcase := process_module_err_trace agentOut entry.2 info.components
            entry.1 ls.st st' heq
          exact ⟨[GenEvent.leafGen entry.2 info.components],
            by simp [hmem]; simpa using hcase, by simp [GenEvent.isRoot]⟩
        | false =>
          rw [hl] at heq
          simp only [Bool.false_eq_true, if_false] at heq
          have hcase := parent_docs_err_trace llmOut repo_name entry.1 ls.st st' heq
          rw [hemp] at hcase
          simp only [Bool.false_eq_true, if_false] at hcase
          exact ⟨[GenEvent.parentGen (entry.1.getLastD repo_name)],
            by simp [hmem]; simpa using hcase, by simp [GenEvent.isRoot]⟩

/-- The whole driver loop only appends non-root events. -/
theorem processLoop_trace_events (agentOut : AgentOracle) (llmOut : LlmOracle)
    (repo_name : String) (tree0 : Tree) :
    ∀ (order : List (List String × String)) (ls : LoopState),
      (∀ e ∈ order, e.1 ≠ []) →
      ∃ es, (processLoop agentOut llmOut repo_name tree0 order ls).st.trace =
        ls.st.trace ++ es ∧ ∀ e ∈ es, e.isRoot = false := by
  intro order
  induction order with
  | nil => intro ls _; exact ⟨[], by simp [processLoop], by simp⟩
  | cons e rest ih =>
    intro ls hpaths
    obtain ⟨es1, h1, hn1⟩ := loopStep_trace_events agentOut llmOut repo_name tree0
      e ls (hpaths e (by simp))
    obtain ⟨es2, h2, hn2⟩ := ih (loopStep agentOut llmOut repo_name tree0 e ls)
      (fun x hx => hpaths x (by simp [hx]))
    refine ⟨es1 ++ es2, ?_, ?_⟩
    · rw [processLoop] at h2 ⊢
      rw [List.foldl_cons, h2, h1, List.append_assoc]
    · intro x hx
      rcases List.mem_append.mp hx with hx | hx
      · exact hn1 x hx
      · exact hn2 x hx

/-! ## Claims -/

/-- C1: re-invoking the Generation Driver on an unchanged working directory
performs zero additional text-generation calls: whenever a module's artifact
file `{module_name}.md` or the repository overview artifact already exists on
disk, the processing step — `process_module` for leaves,
`generate_parent_module_docs` for parents — returns the current module tree
unchanged with the working-directory state untouched (in particular no
generation call is issued and no trace event appended). -/
theorem C1_already_done_short_circuit (agentOut : AgentOracle) (llmOut : LlmOracle)
    (module_name repo_name : String) (core_component_ids : List CompId)
    (module_path : List String) (st : GenState) :
    ((fsExists st.mdFiles overviewFilename = true ∨
      fsExists st.mdFiles (module_name ++ ".md") = true) →
      process_module agentOut module_name core_component_ids module_path st =
        .ok (st.moduleTreeFile, st)) ∧
    ((fsExists st.mdFiles overviewFilename = true ∨
      fsExists st.mdFiles
        ((if 1 ≤ module_path.length then module_path.getLastD repo_name
          else "overview") ++ ".md") = true) →
      generate_parent_module_docs llmOut repo_name module_path st =
        .ok (st.moduleTreeFile, st)) := by
  constructor
  · rintro (h | h)
    · simp [process_module, h]
    · by_cases h0 : fsExists st.mdFiles overviewFilename
      · simp [process_module, h0]
      · simp [process_module, h0, h]
  · rintro (h | h)
    · simp [generate_parent_module_docs, h]
    · by_cases h0 : fsExists st.mdFiles overviewFilename
      · simp [generate_parent_module_docs, h0]
      · simp only [List.getLastD_eq_getLast?] at h
        simp [generate_parent_module_docs, h0, h]

theorem C1_already_done_short_circuit_witness :
    (fsExists [("m.md", ('x' : Char) :: [])] overviewFilename = true ∨
     fsExists [("m.md", ('x' : Char) :: [])] ("m" ++ ".md") = true) ∧
    process_module (fun _ _ _ => none) "m" ["c1"] ["m"]
        ⟨[("m.md", ('x' : Char) :: [])], [("m", MTree.node ["c1"] [])],
         [("m", MTree.node ["c1"] [])], 0, []⟩ =
      .ok ([("m", MTree.node ["c1"] [])],
        ⟨[("m.md", ('x' : Char) :: [])], [("m", MTree.node ["c1"] [])],
         [("m", MTree.node ["c1"] [])], 0, []⟩) ∧
    generate_parent_module_docs (fun _ => none) "repo" ["m"]
        ⟨[("m.md", ('x' : Char) :: [])], [("m", MTree.node ["c1"] [])],
         [("m", MTree.node ["c1"] [])], 0, []⟩ =
      .ok ([("m", MTree.node ["c1"] [])],
        ⟨[("m.md", ('x' : Char) :: [])], [("m", MTree.node ["c1"] [])],
         [("m", MTree.node ["c1"] [])], 0, []⟩) :=
  ⟨Or.inr (by decide),
   (C1_already_done_short_circuit (fun _ _ _ => none) (fun _ => none) "m" "repo"
      ["c1"] ["m"] _).1 (Or.inr (by decide)),
   (C1_already_done_short_circuit (fun _ _ _ => none) (fun _ => none) "m" "repo"
      ["c1"] ["m"] _).2 (Or.inr (by decide))⟩

/-- C5: when a parent/root overview response is non-empty but does not
contain both `<OVERVIEW>` and `</OVERVIEW>` tags, the driver saves the
stripped raw response as the module's artifact and returns successfully
(warning only); a completely empty response, or a parsed content that is
empty, raises an error for that module instead — the error state carries the
unchanged artifact files, so nothing was saved. -/
theorem C5_overview_tag_fallback (llmOut : LlmOracle) (repo_name : String)
    (module_path : List String) (st : GenState) (resp : Text)
    (h0 : fsExists st.mdFiles overviewFilename = false)
    (h1 : fsExists st.mdFiles
      ((if 1 ≤ module_path.length then module_path.getLastD repo_name
        else "overview") ++ ".md") = false)
    (h2 : llmOut (module_path.getLastD repo_name) = some resp) :
    (resp ≠ [] →
     ¬(pyContains ovOpen resp = true ∧ pyContains ovClose resp = true) →
     pyStrip resp ≠ [] →
     generate_parent_module_docs llmOut repo_name module_path st =
       .ok (st.moduleTreeFile,
         ⟨fsWrite st.mdFiles
            ((if 1 ≤ module_path.length then module_path.getLastD repo_name
              else "overview") ++ ".md") (pyStrip resp),
          st.moduleTreeFile, st.firstTreeFile, st.genCalls + 1,
          st.trace ++ [if module_path.isEmpty then
              GenEvent.rootGen (module_path.getLastD repo_name)
            else GenEvent.parentGen (module_path.getLastD repo_name)]⟩)) ∧
    ((resp = [] ∨
      (if pyContains ovOpen resp && pyContains ovClose resp then
        extractOverview resp else pyStrip resp) = []) →
     generate_parent_module_docs llmOut repo_name module_path st =
       .error ⟨st.mdFiles, st.moduleTreeFile, st.firstTreeFile, st.genCalls + 1,
          st.trace ++ [if module_path.isEmpty then
              GenEvent.rootGen (module_path.getLastD repo_name)
            else GenEvent.parentGen (module_path.getLastD repo_name)]⟩) := by
  simp only [List.getLastD_eq_getLast?] at h1 h2
  constructor
  · intro hne htags hstrip
    have htags' : (pyContains ovOpen resp && pyContains ovClose resp) = false := by
      cases hb : pyContains ovOpen resp <;> cases hc : pyContains ovClose resp <;>
        simp_all
    simp [generate_parent_module_docs, h0, h1, h2, hne, htags', hstrip,
      List.getLastD_eq_getLast?]
  · rintro (hre | hpc)
    · subst hre
      simp [generate_parent_module_docs, h0, h1, h2, List.getLastD_eq_getLast?,
        pyContains, findSplit, ovOpen, ovClose]
    · by_cases hne : resp = []
      · subst hne
        simp [generate_parent_module_docs, h0, h1, h2, List.getLastD_eq_getLast?,
          pyContains, findSplit, ovOpen, ovClose]
      · rcases hb : (pyContains ovOpen resp && pyContains ovClose resp) with _ | _ <;>
          rw [hb] at hpc <;>
          simp only [if_true, if_false, Bool.false_eq_true, Bool.true_eq_false] at hpc <;>
          simp [generate_parent_module_docs, h0, h1, h2, hne, hb, hpc,
            List.getLastD_eq_getLast?]

theorem C5_overview_tag_fallback_witness :
    (fsExists ([] : List (String × Text)) overviewFilename = false) ∧
    generate_parent_module_docs (fun _ => some "raw text".toList) "repo" ["p"]
        ⟨[], [], [], 0, []⟩ =
      .ok ([], ⟨fsWrite [] ("p" ++ ".md") (pyStrip "raw text".toList),
                [], [], 1, [GenEvent.parentGen "p"]⟩) ∧
    generate_parent_module_docs (fun _ => some []) "repo" ["p"]
        ⟨[], [], [], 0, []⟩ =
      .error ⟨[], [], [], 1, [GenEvent.parentGen "p"]⟩ ∧
    generate_parent_module_docs (fun _ => some "  ".toList) "repo" ["p"]
        ⟨[], [], [], 0, []⟩ =
      .error ⟨[], [], [], 1, [GenEvent.parentGen "p"]⟩ := by
  refine ⟨by decide, ?_, ?_, ?_⟩
  · have h := (C5_overview_tag_fallback (fun _ => some "raw text".toList) "repo" ["p"]
      ⟨[], [], [], 0, []⟩ "raw text".toList (by decide) (by decide) rfl).1
      (by decide) (by decide) (by decide)
    simpa using h
  · have h := (C5_overview_tag_fallback (fun _ => some []) "repo" ["p"]
      ⟨[], [], [], 0, []⟩ [] (by decide) (by decide) rfl).2 (Or.inl rfl)
    simpa using h
  · have h := (C5_overview_tag_fallback (fun _ => some "  ".toList) "repo" ["p"]
      ⟨[], [], [], 0, []⟩ "  ".toList (by decide) (by decide) rfl).2
      (Or.inr (by decide))
    simpa using h

/-- On a successful pass over the spec list, path and depth end where they
started. -/
theorem subSpecsLoop_ok_restores (subRun : SubAgentOracle)
    (components : List (String × Component)) (tokensOf : List CompId → Nat)
    (max_depth thr : Nat) :
    ∀ (specs : List (String × List CompId)) (st st' : SubState),
      subSpecsLoop subRun components tokensOf max_depth thr specs st = .ok st' →
      st'.path_to_current_module = st.path_to_current_module ∧
      st'.current_depth = st.current_depth := by
  intro specs
  induction specs with
  | nil => intro st st' h; cases h; exact ⟨rfl, rfl⟩
  | cons hd tl ih =>
    intro st st' h
    rw [subSpecsLoop] at h
    cases hrun : subRun hd.1
        (subModuleIsComplex components hd.2 st.current_depth max_depth
          (tokensOf hd.2) thr)
        { st with current_module_name := hd.1,
                  path_to_current_module := st.path_to_current_module ++ [hd.1],
                  current_depth := st.current_depth + 1 } with
    | error stE => rw [hrun] at h; cases h
    | ok tree' =>
      rw [hrun] at h
      have h2 := ih _ _ h
      simpa using h2

/-- A failing pass returns exactly the state some failing sub-agent run left:
that run was invoked on a state with its sub-module's name freshly pushed and
the depth freshly incremented, and nothing is restored afterward. -/
theorem subSpecsLoop_err_source (subRun : SubAgentOracle)
    (components : List (String × Component)) (tokensOf : List CompId → Nat)
    (max_depth thr : Nat) :
    ∀ (specs : List (String × List CompId)) (st stE : SubState),
      subSpecsLoop subRun components tokensOf max_depth thr specs st = .error stE →
      ∃ (stPre : SubState) (name : String) (ids : List CompId) (cf : Bool),
        (name, ids) ∈ specs ∧
        subRun name cf
          { stPre with current_module_name := name,
                       path_to_current_module :=
                         stPre.path_to_current_module ++ [name],
                       current_depth := stPre.current_depth + 1 } = .error stE := by
  intro specs
  induction specs with
  | nil => intro st stE h; cases h
  | cons hd tl ih =>
    intro st stE h
    rw [subSpecsLoop] at h
    cases hrun : subRun hd.1
        (subModuleIsComplex components hd.2 st.current_depth max_depth
          (tokensOf hd.2) thr)
        { st with current_module_name := hd.1,
                  path_to_current_module := st.path_to_current_module ++ [hd.1],
                  current_depth := st.current_depth + 1 } with
    | error stE' =>
      rw [hrun] at h
      cases h
      exact ⟨st, hd.1, hd.2,
        subModuleIsComplex components hd.2 st.current_depth max_depth
          (tokensOf hd.2) thr, by simp, hrun⟩
    | ok tree' =>
      rw [hrun] at h
      obtain ⟨stPre, name, ids, cf, hmem, hr⟩ := ih _ _ h
      exact ⟨stPre, name, ids, cf, by simp [hmem], hr⟩

/-- C4 (counterexample): the claim "path and depth are restored on both the
success path and the failure path" is false on the code.  With one declared
sub-module whose sub-agent raises, the tool call fails with the sub-module's
name still pushed on `path_to_current_module` and `current_depth` still
incremented — the pop is written after `await sub_agent.run(...)` with no
`finally`. -/
theorem C4_push_pop_cex :
    generate_sub_module_documentation (fun _ _ st => .error st) [] (fun _ => 0) 3 0
        [("s", ["c"])] ⟨[], 1, "m", []⟩ =
      .error ⟨["s"], 2, "s", [("s", MTree.node ["c"] [])]⟩ ∧
    (["s"] ≠ ([] : List String) ∧ 2 ≠ 1) := by
  constructor
  · simp [generate_sub_module_documentation, updateChildrenAt, addSpecs, dictSet,
      subSpecsLoop, subModuleIsComplex, is_complex_module]
  · exact ⟨by decide, by decide⟩

/-- C4 (amended): for every declared sub-module the depth counter is
incremented and the sub-module name pushed onto the path stack before the
sub-agent is invoked, and the tool pops them only on the success
continuation (part 3 is the loop's one-step unfolding, showing the
invocation receives exactly the pushed state); after a tool call that
returns successfully, path, depth and current module name equal their
prior values (part 1); but on the failure path they are NOT restored: the
tool propagates the exception with the shared deps exactly as the failing
sub-agent run left them at raise time — the frame pushed for that
sub-module, and any frames a nested spawner leaked, stay in place
(part 2). -/
theorem C4_push_pop_amended (subRun : SubAgentOracle)
    (components : List (String × Component)) (tokensOf : List CompId → Nat)
    (max_depth thr : Nat) (specs : List (String × List CompId)) (st : SubState) :
    (∀ msg st',
      generate_sub_module_documentation subRun components tokensOf max_depth thr
          specs st = .ok (msg, st') →
      st'.path_to_current_module = st.path_to_current_module ∧
      st'.current_depth = st.current_depth ∧
      st'.current_module_name = st.current_module_name) ∧
    (∀ stE tree',
      updateChildrenAt st.module_tree st.path_to_current_module
          (fun ch => addSpecs ch specs) = some tree' →
      generate_sub_module_documentation subRun components tokensOf max_depth thr
          specs st = .error stE →
      ∃ (stPre : SubState) (name : String) (ids : List CompId) (cf : Bool),
        (name, ids) ∈ specs ∧
        subRun name cf
          { stPre with current_module_name := name,
                       path_to_current_module :=
                         stPre.path_to_current_module ++ [name],
                       current_depth := stPre.current_depth + 1 } = .error stE) ∧
    (∀ (name : String) (ids : List CompId) rest (st0 : SubState),
      subSpecsLoop subRun components tokensOf max_depth thr ((name, ids) :: rest)
          st0 =
        match subRun name
            (subModuleIsComplex components ids st0.current_depth max_depth
              (tokensOf ids) thr)
            { st0 with current_module_name := name,
                       path_to_current_module :=
                         st0.path_to_current_module ++ [name],
                       current_depth := st0.current_depth + 1 } with
        | .error stE => .error stE
        | .ok tree' =>
          subSpecsLoop subRun components tokensOf max_depth thr rest
            { path_to_current_module :=
                (st0.path_to_current_module ++ [name]).dropLast,
              current_depth := st0.current_depth + 1 - 1,
              current_module_name := name,
              module_tree := tree' }) := by
  refine ⟨?_, ?_, ?_⟩
  · intro msg st' h
    rw [generate_sub_module_documentation] at h
    cases hupd : updateChildrenAt st.module_tree st.path_to_current_module
        (fun ch => addSpecs ch specs) with
    | none => rw [hupd] at h; cases h
    | some tree' =>
      rw [hupd] at h
      dsimp only at h
      cases hloop : subSpecsLoop subRun components tokensOf max_depth thr specs
          { st with module_tree := tree' } with
      | error st'' => rw [hloop] at h; cases h
      | ok st'' =>
        rw [hloop] at h
        dsimp only at h
        cases h
        have := subSpecsLoop_ok_restores subRun components tokensOf max_depth thr
          specs _ _ hloop
        exact ⟨this.1, this.2, rfl⟩
  · intro stE tree' hupd h
    rw [generate_sub_module_documentation, hupd] at h
    dsimp only at h
    cases hloop : subSpecsLoop subRun components tokensOf max_depth thr specs
        { st with module_tree := tree' } with
    | error st'' =>
      rw [hloop] at h
      dsimp only at h
      cases h
      exact subSpecsLoop_err_source subRun components tokensOf max_depth thr
        specs { st with module_tree := tree' } _ hloop
    | ok st'' => rw [hloop] at h; dsimp only at h; cases h
  · intro name ids rest st0
    rfl

theorem C4_push_pop_amended_witness :
    (generate_sub_module_documentation (fun _ _ st => .ok st.module_tree) []
        (fun _ => 0) 3 0 [("s", ["c"])] ⟨[], 1, "m", []⟩ =
      .ok ("Generate successfully. Documentations: s.md are saved in the working directory.",
           ⟨[], 1, "m", [("s", MTree.node ["c"] [])]⟩) ∧
     (([] : List String) = [] ∧ 1 = 1 ∧ "m" = "m")) ∧
    (updateChildrenAt [] [] (fun ch => addSpecs ch [("t", ["c"])]) =
        some [("t", MTree.node ["c"] [])] ∧
     generate_sub_module_documentation (fun _ _ st => .error st) [] (fun _ => 0) 3 0
        [("t", ["c"])] ⟨[], 1, "m", []⟩ =
      .error ⟨["t"], 2, "t", [("t", MTree.node ["c"] [])]⟩ ∧
     (∃ (stPre : SubState) (name : String) (ids : List CompId) (cf : Bool),
        (name, ids) ∈ [("t", ["c"])] ∧
        (fun _ _ st => Except.error st : SubAgentOracle) name cf
          { stPre with current_module_name := name,
                       path_to_current_module :=
                         stPre.path_to_current_module ++ [name],
                       current_depth := stPre.current_depth + 1 } =
          .error ⟨["t"], 2, "t", [("t", MTree.node ["c"] [])]⟩)) := by
  have hok : generate_sub_module_documentation (fun _ _ st => .ok st.module_tree) []
      (fun _ => 0) 3 0 [("s", ["c"])] ⟨[], 1, "m", []⟩ =
      .ok ("Generate successfully. Documentations: s.md are saved in the working directory.",
           ⟨[], 1, "m", [("s", MTree.node ["c"] [])]⟩) := by
    simp [generate_sub_module_documentation, updateChildrenAt, addSpecs, dictSet,
      subSpecsLoop, subModuleIsComplex, is_complex_module, String.intercalate]
    rfl
  have hupd : updateChildrenAt ([] : Tree) [] (fun ch => addSpecs ch [("t", ["c"])]) =
      some [("t", MTree.node ["c"] [])] := by
    simp [updateChildrenAt, addSpecs, dictSet]
  have herr : generate_sub_module_documentation (fun _ _ st => .error st) []
      (fun _ => 0) 3 0 [("t", ["c"])] ⟨[], 1, "m", []⟩ =
      .error ⟨["t"], 2, "t", [("t", MTree.node ["c"] [])]⟩ := by
    simp [generate_sub_module_documentation, updateChildrenAt, addSpecs, dictSet,
      subSpecsLoop, subModuleIsComplex, is_complex_module]
  refine ⟨⟨hok, ?_⟩, hupd, herr, ?_⟩
  · exact (C4_push_pop_amended (fun _ _ st => .ok st.module_tree) [] (fun _ => 0)
      3 0 [("s", ["c"])] ⟨[], 1, "m", []⟩).1 _ _ hok
  · exact (C4_push_pop_amended (fun _ _ st => .error st) [] (fun _ => 0) 3 0
      [("t", ["c"])] ⟨[], 1, "m", []⟩).2.1 _ _ hupd herr

/-- All-equal lists have at most one distinct element. -/
theorem dedup_length_le_one_of_all_eq (f : String) :
    ∀ (l : List String), (∀ x ∈ l, x = f) → l.dedup.length ≤ 1 := by
  intro l
  induction l with
  | nil => intro _; simp
  | cons x xs ih =>
    intro h
    by_cases hx : x ∈ xs
    · rw [List.dedup_cons_of_mem hx]
      exact ih (fun y hy => h y (List.mem_cons_of_mem x hy))
    · have hxs : xs = [] := by
        cases xs with
        | nil => rfl
        | cons y ys =>
          exfalso
          have hy : y = f := h y (by simp)
          have hxf : x = f := h x (by simp)
          exact hx (by rw [hxf, ← hy]; simp)
      subst hxs
      simp

/-- C6: a declared sub-module is classified Complex (its sub-agent receives
the spawner tool) iff its components span more than one distinct source
file AND the current depth is below the configured maximum AND its token
size is at or above the leaf-module threshold; a sub-module whose components
all come from one file is classified Leaf for every depth and every size. -/
theorem C6_complex_classification (components : List (String × Component))
    (core_component_ids : List CompId) (current_depth max_depth : Nat)
    (num_tokens max_token_per_leaf_module : Nat) :
    (subModuleIsComplex components core_component_ids current_depth max_depth
        num_tokens max_token_per_leaf_module = true ↔
      (1 < (((core_component_ids.filterMap (fun cid => components.lookup cid)).map
              Component.relative_path).dedup).length ∧
       current_depth < max_depth ∧
       max_token_per_leaf_module ≤ num_tokens)) ∧
    ((∃ f, ∀ c ∈ core_component_ids.filterMap (fun cid => components.lookup cid),
        c.relative_path = f) →
      subModuleIsComplex components core_component_ids current_depth max_depth
        num_tokens max_token_per_leaf_module = false) := by
  constructor
  · simp [subModuleIsComplex, is_complex_module, ge_iff_le, and_assoc]
  · rintro ⟨f, hf⟩
    have hone : (((core_component_ids.filterMap (fun cid => components.lookup cid)).map
        Component.relative_path).dedup).length ≤ 1 := by
      apply dedup_length_le_one_of_all_eq
      intro x hx
      obtain ⟨c, hc, hcx⟩ := List.mem_map.mp hx
      rw [← hcx]
      exact hf c hc
    simp [subModuleIsComplex, is_complex_module]
    omega

theorem C6_complex_classification_witness :
    ((subModuleIsComplex [("c1", ⟨"a.py"⟩), ("c2", ⟨"b.py"⟩)] ["c1", "c2"] 1 3 500 100 = true ↔
      (1 < ((["c1", "c2"].filterMap
              (fun cid => [("c1", (⟨"a.py"⟩ : Component)), ("c2", ⟨"b.py"⟩)].lookup cid)).map
              Component.relative_path).dedup.length ∧
       1 < 3 ∧ 100 ≤ 500)) ∧
     subModuleIsComplex [("c1", ⟨"a.py"⟩), ("c2", ⟨"a.py"⟩)] ["c1", "c2"] 1 3 500 100 = false) :=
  ⟨(C6_complex_classification [("c1", ⟨"a.py"⟩), ("c2", ⟨"b.py"⟩)] ["c1", "c2"] 1 3 500 100).1,
   (C6_complex_classification [("c1", ⟨"a.py"⟩), ("c2", ⟨"a.py"⟩)] ["c1", "c2"] 1 3 500 100).2
     ⟨"a.py", by decide⟩⟩

/-- C8: `cluster_modules` called with a precomputed grouping (a projection
whose `saved_grouping` is set) returns that grouping unchanged and issues
zero text-generation calls, for every token size and budget. -/
theorem C8_saved_grouping_bypass (llmCluster : Unit → Tree × Nat)
    (num_tokens budget : Nat) (g : Tree) :
    cluster_modules llmCluster num_tokens budget (some ⟨some g⟩) = (g, 0) := rfl

/-- C9: `filter_supplementary_for_module` includes a supplementary file in
its result iff it is one of the given files and either sits at the
repository root (no directory part) or shares a directory-path prefix with
at least one of the module's component relative paths. -/
theorem C9_supplementary_filter (all_files : List (RelPath × Text))
    (module_component_paths : List RelPath) (f : RelPath × Text) :
    f ∈ filter_supplementary_for_module all_files module_component_paths ↔
      (f ∈ all_files ∧
       (atRoot f.1 = true ∨
        ∃ c ∈ module_component_paths, sharesDirWith f.1 c = true)) := by
  simp [filter_supplementary_for_module, List.mem_filter]

/-- Round trip of one serialized glossary entry. -/
theorem entryFromDict_entryToDict (v : GlossaryEntry α) :
    entryFromDict (entryToDict v) = some v := rfl

/-- C10: `Glossary.from_dict (g.to_dict)` recovers `g` exactly — every
entry's identifier, business name, definition, category, confidence, source
files and component ids survive the serialize/deserialize round trip (what
makes a persisted `glossary.json` reloadable in a later run). -/
theorem C10_glossary_round_trip (α : Type) (g : Glossary α) :
    Glossary.from_dict (Glossary.to_dict g) = some g := by
  obtain ⟨entries⟩ := g
  rw [Glossary.to_dict, Glossary.from_dict]
  have h : ∀ (l : List (String × GlossaryEntry α)),
      entriesFromDict (l.map (fun p => (p.1, entryToDict p.2))) = some l := by
    intro l
    induction l with
    | nil => rfl
    | cons hd tl ih =>
      simp [entriesFromDict, entryFromDict_entryToDict, ih]
  simp [h entries]

/-- C2: for every (sibling-name-unique) planning snapshot and every node in
it, the Processing-Order Planner emits every proper descendant of the node
strictly earlier in the sequence than the node itself (part 1: an entry whose
path strictly extends another entry's path sits strictly earlier; part 2:
every node of the snapshot is emitted, under its path, with its own name);
and on a successful run over a non-empty working tree the Generation Driver
performs the repository-root overview generation only after all per-module
events: the trace it appends is module events (never `rootGen`) followed by
at most one final `rootGen` event. -/
theorem C2_postorder_and_root_last (agentOut : AgentOracle) (llmOut : LlmOracle)
    (repo_name : String) (leaf_nodes : List CompId) (st0 : GenState)
    (tr : Tree) (st' : GenState)
    (hwf : treeWF st0.firstTreeFile = true)
    (hne : st0.moduleTreeFile ≠ [])
    (hok : generate_module_documentation agentOut llmOut repo_name leaf_nodes st0 =
      .ok (tr, st')) :
    (∀ (i j : Nat) (hi : i < (get_processing_order st0.firstTreeFile []).length)
        (hj : j < (get_processing_order st0.firstTreeFile []).length),
      ((get_processing_order st0.firstTreeFile []).get ⟨i, hi⟩).1 ≠
        ((get_processing_order st0.firstTreeFile []).get ⟨j, hj⟩).1 →
      ((get_processing_order st0.firstTreeFile []).get ⟨i, hi⟩).1 <+:
        ((get_processing_order st0.firstTreeFile []).get ⟨j, hj⟩).1 →
      j < i) ∧
    (∀ p, isNodePath st0.firstTreeFile p = true →
      ∃ q k, p = q ++ [k] ∧ (p, k) ∈ get_processing_order st0.firstTreeFile []) ∧
    (∃ es tail, st'.trace = st0.trace ++ es ++ tail ∧
      (∀ e ∈ es, e.isRoot = false) ∧
      (tail = [] ∨ tail = [GenEvent.rootGen repo_name])) := by
  refine ⟨?_, ?_, ?_⟩
  · have hpw := collect_pairwise st0.firstTreeFile [] hwf
    rw [List.pairwise_iff_getElem] at hpw
    intro i j hi hj hnep hpre
    rcases lt_trichotomy i j with hij | hij | hij
    · exfalso
      have := hpw i j hi hj hij
      simp only [List.get_eq_getElem] at hnep hpre
      exact this ⟨hnep, hpre⟩
    · subst hij
      exact absurd rfl hnep
    · exact hij
  · intro p hp
    obtain ⟨q, k, hqk, hmem⟩ := collect_complete p st0.firstTreeFile [] hp
    exact ⟨q, k, hqk, by simpa using hmem⟩
  · rw [generate_module_documentation] at hok
    rw [if_pos (by simpa [List.length_pos] using hne)] at hok
    obtain ⟨es, hes, hnr⟩ := processLoop_trace_events agentOut llmOut repo_name
      st0.moduleTreeFile (get_processing_order st0.firstTreeFile [])
      ⟨st0.moduleTreeFile, [], st0⟩
      (fun e he => collect_paths_ne_nil st0.firstTreeFile [] e he)
    rcases parent_docs_ok_trace llmOut repo_name [] _ tr st' hok with hcase | hcase
    · exact ⟨es, [], by rw [hcase, hes]; simp, hnr, Or.inl rfl⟩
    · refine ⟨es, [GenEvent.rootGen repo_name], ?_, hnr, Or.inr rfl⟩
      rw [hcase, hes]
      simp

theorem C2_postorder_and_root_last_witness :
    treeWF [("a", MTree.node ["c1"] [])] = true ∧
    ([("a", MTree.node ["c1"] [])] : Tree) ≠ [] ∧
    generate_module_documentation
        (fun _ _ _ => some ⟨[("a", MTree.node ["c1"] [])], [("a.md", [('d' : Char)])]⟩)
        (fun _ => some "<OVERVIEW>ok</OVERVIEW>".toList) "r" ["c1"]
        ⟨[], [("a", MTree.node ["c1"] [])], [("a", MTree.node ["c1"] [])], 0, []⟩ =
      .ok ([("a", MTree.node ["c1"] [])],
        ⟨[("overview.md", [('o' : Char), 'k']), ("a.md", [('d' : Char)])],
         [("a", MTree.node ["c1"] [])], [("a", MTree.node ["c1"] [])], 2,
         [GenEvent.leafGen "a" ["c1"], GenEvent.rootGen "r"]⟩) ∧
    ((∀ (i j : Nat)
        (hi : i < (get_processing_order [("a", MTree.node ["c1"] [])] []).length)
        (hj : j < (get_processing_order [("a", MTree.node ["c1"] [])] []).length),
      ((get_processing_order [("a", MTree.node ["c1"] [])] []).get ⟨i, hi⟩).1 ≠
        ((get_processing_order [("a", MTree.node ["c1"] [])] []).get ⟨j, hj⟩).1 →
      ((get_processing_order [("a", MTree.node ["c1"] [])] []).get ⟨i, hi⟩).1 <+:
        ((get_processing_order [("a", MTree.node ["c1"] [])] []).get ⟨j, hj⟩).1 →
      j < i) ∧
    (∀ p, isNodePath [("a", MTree.node ["c1"] [])] p = true →
      ∃ q k, p = q ++ [k] ∧ (p, k) ∈ get_processing_order [("a", MTree.node ["c1"] [])] []) ∧
    (∃ es tail,
      ([GenEvent.leafGen "a" ["c1"], GenEvent.rootGen "r"] : List GenEvent) =
        [] ++ es ++ tail ∧
      (∀ e ∈ es, e.isRoot = false) ∧
      (tail = [] ∨ tail = [GenEvent.rootGen "r"]))) := by
  have hwf : treeWF [("a", MTree.node ["c1"] [])] = true := by
    simp [treeWF]
  have hne : ([("a", MTree.node ["c1"] [])] : Tree) ≠ [] := by simp
  have hok : generate_module_documentation
      (fun _ _ _ => some ⟨[("a", MTree.node ["c1"] [])], [("a.md", [('d' : Char)])]⟩)
      (fun _ => some "<OVERVIEW>ok</OVERVIEW>".toList) "r" ["c1"]
      ⟨[], [("a", MTree.node ["c1"] [])], [("a", MTree.node ["c1"] [])], 0, []⟩ =
      .ok ([("a", MTree.node ["c1"] [])],
        ⟨[("overview.md", [('o' : Char), 'k']), ("a.md", [('d' : Char)])],
         [("a", MTree.node ["c1"] [])], [("a", MTree.node ["c1"] [])], 2,
         [GenEvent.leafGen "a" ["c1"], GenEvent.rootGen "r"]⟩) := by
    have hk : moduleKey ["a"] = "a" := rfl
    simp [generate_module_documentation, get_processing_order, collect_modules,
      processLoop, loopStep, getAtPath, hk, is_leaf_module, process_module,
      generate_parent_module_docs, fsExists, fsWrite, fsWriteAll, overviewFilename,
      pyContains, findSplit, ovOpen, ovClose, extractOverview, segAfterFirst,
      beforeFirst, pyStrip, MTree.components, MTree.children]
  exact ⟨hwf, hne, hok,
    C2_postorder_and_root_last
      (fun _ _ _ => some ⟨[("a", MTree.node ["c1"] [])], [("a.md", [('d' : Char)])]⟩)
      (fun _ => some "<OVERVIEW>ok</OVERVIEW>".toList) "r" ["c1"]
      ⟨[], [("a", MTree.node ["c1"] [])], [("a", MTree.node ["c1"] [])], 0, []⟩
      _ _ hwf hne hok⟩

/-- C3: failure partitioning of the Generation Driver.  Part 1: an exception
raised while processing a module in the order (leaf or parent step) is caught
by the outer loop — the loop state keeps its tree and processed set, records
the failed step's disk state, and traversal continues with the next entry.
Parts 2 and 3: the run's outcome is exactly the outcome of the final
repository-root overview step, which has no surrounding handler — its
failure aborts the run with that very error, while module failures alone
never do. -/
theorem C3_failure_partitioning (agentOut : AgentOracle) (llmOut : LlmOracle)
    (repo_name : String) (leaf_nodes : List CompId) (st0 : GenState)
    (hne : st0.moduleTreeFile ≠ []) :
    (∀ (entry : List String × String) (rest : List (List String × String))
        (ls : LoopState) (info : MTree) (st' : GenState),
      getAtPath st0.moduleTreeFile entry.1 = some info →
      ¬(moduleKey entry.1 ∈ ls.processed) →
      (if is_leaf_module info then
         process_module agentOut entry.2 info.components entry.1 ls.st
       else generate_parent_module_docs llmOut repo_name entry.1 ls.st) =
        .error st' →
      loopStep agentOut llmOut repo_name st0.moduleTreeFile entry ls =
        ⟨ls.finalTree, ls.processed, st'⟩ ∧
      processLoop agentOut llmOut repo_name st0.moduleTreeFile (entry :: rest) ls =
        processLoop agentOut llmOut repo_name st0.moduleTreeFile rest
          ⟨ls.finalTree, ls.processed, st'⟩) ∧
    (∀ stR,
      generate_parent_module_docs llmOut repo_name []
          (processLoop agentOut llmOut repo_name st0.moduleTreeFile
            (get_processing_order st0.firstTreeFile [])
            ⟨st0.moduleTreeFile, [], st0⟩).st = .error stR →
      generate_module_documentation agentOut llmOut repo_name leaf_nodes st0 =
        .error stR) ∧
    (∀ tr stR,
      generate_parent_module_docs llmOut repo_name []
          (processLoop agentOut llmOut repo_name st0.moduleTreeFile
            (get_processing_order st0.firstTreeFile [])
            ⟨st0.moduleTreeFile, [], st0⟩).st = .ok (tr, stR) →
      generate_module_documentation agentOut llmOut repo_name leaf_nodes st0 =
        .ok (tr, stR)) := by
  refine ⟨?_, ?_, ?_⟩
  · intro entry rest ls info st' hlk hmem herr
    have hstep : loopStep agentOut llmOut repo_name st0.moduleTreeFile entry ls =
        ⟨ls.finalTree, ls.processed, st'⟩ := by
      simp [loopStep, hlk, hmem, herr]
    exact ⟨hstep, by simp [processLoop, hstep]⟩
  · intro stR hroot
    rw [generate_module_documentation,
      if_pos (by simpa [List.length_pos] using hne)]
    exact hroot
  · intro tr stR hroot
    rw [generate_module_documentation,
      if_pos (by simpa [List.length_pos] using hne)]
    exact hroot

theorem C3_failure_partitioning_witness :
    (([("a", MTree.node ["c1"] []), ("b", MTree.node ["c2"] [])] : Tree) ≠ [] ∧
     getAtPath [("a", MTree.node ["c1"] []), ("b", MTree.node ["c2"] [])] ["a"] =
       some (MTree.node ["c1"] []) ∧
     process_module (fun _ _ _ => none) "a" ["c1"] ["a"]
         ⟨[], [("a", MTree.node ["c1"] []), ("b", MTree.node ["c2"] [])],
          [("a", MTree.node ["c1"] []), ("b", MTree.node ["c2"] [])], 0, []⟩ =
       .error ⟨[], [("a", MTree.node ["c1"] []), ("b", MTree.node ["c2"] [])],
          [("a", MTree.node ["c1"] []), ("b", MTree.node ["c2"] [])], 1,
          [GenEvent.leafGen "a" ["c1"]]⟩ ∧
     loopStep (fun _ _ _ => none) (fun _ => none) "r"
         [("a", MTree.node ["c1"] []), ("b", MTree.node ["c2"] [])] (["a"], "a")
         ⟨[("a", MTree.node ["c1"] []), ("b", MTree.node ["c2"] [])], [],
          ⟨[], [("a", MTree.node ["c1"] []), ("b", MTree.node ["c2"] [])],
           [("a", MTree.node ["c1"] []), ("b", MTree.node ["c2"] [])], 0, []⟩⟩ =
       ⟨[("a", MTree.node ["c1"] []), ("b", MTree.node ["c2"] [])], [],
        ⟨[], [("a", MTree.node ["c1"] []), ("b", MTree.node ["c2"] [])],
         [("a", MTree.node ["c1"] []), ("b", MTree.node ["c2"] [])], 1,
         [GenEvent.leafGen "a" ["c1"]]⟩⟩) ∧
    generate_module_documentation (fun _ _ _ => none) (fun _ => none) "r" []
        ⟨[], [("a", MTree.node ["c1"] []), ("b", MTree.node ["c2"] [])],
         [("a", MTree.node ["c1"] []), ("b", MTree.node ["c2"] [])], 0, []⟩ =
      .error ⟨[], [("a", MTree.node ["c1"] []), ("b", MTree.node ["c2"] [])],
         [("a", MTree.node ["c1"] []), ("b", MTree.node ["c2"] [])], 3,
         [GenEvent.leafGen "a" ["c1"], GenEvent.leafGen "b" ["c2"],
          GenEvent.rootGen "r"]⟩ ∧
    generate_module_documentation
        (fun _ _ _ => some ⟨[("m", MTree.node ["c9"] [])], [("m.md", [('x' : Char)])]⟩)
        (fun _ => some "<OVERVIEW>fine</OVERVIEW>".toList) "root" ["c9"]
        ⟨[], [("m", MTree.node ["c9"] [])], [("m", MTree.node ["c9"] [])], 0, []⟩ =
      .ok ([("m", MTree.node ["c9"] [])],
        ⟨[("overview.md", "fine".toList), ("m.md", [('x' : Char)])],
         [("m", MTree.node ["c9"] [])], [("m", MTree.node ["c9"] [])], 2,
         [GenEvent.leafGen "m" ["c9"], GenEvent.rootGen "root"]⟩) := by
  have hne1 : ([("a", MTree.node ["c1"] []), ("b", MTree.node ["c2"] [])] : Tree) ≠ [] := by
    simp
  have hlk : getAtPath [("a", MTree.node ["c1"] []), ("b", MTree.node ["c2"] [])] ["a"] =
      some (MTree.node ["c1"] []) := by
    simp [getAtPath]
  have herr : process_module (fun _ _ _ => none) "a" ["c1"] ["a"]
      ⟨[], [("a", MTree.node ["c1"] []), ("b", MTree.node ["c2"] [])],
       [("a", MTree.node ["c1"] []), ("b", MTree.node ["c2"] [])], 0, []⟩ =
      .error ⟨[], [("a", MTree.node ["c1"] []), ("b", MTree.node ["c2"] [])],
         [("a", MTree.node ["c1"] []), ("b", MTree.node ["c2"] [])], 1,
         [GenEvent.leafGen "a" ["c1"]]⟩ := by
    simp [process_module, fsExists, overviewFilename]
  have hstep := ((C3_failure_partitioning (fun _ _ _ => none) (fun _ => none) "r" []
      ⟨[], [("a", MTree.node ["c1"] []), ("b", MTree.node ["c2"] [])],
       [("a", MTree.node ["c1"] []), ("b", MTree.node ["c2"] [])], 0, []⟩ hne1).1
      (["a"], "a") [(["b"], "b")]
      ⟨[("a", MTree.node ["c1"] []), ("b", MTree.node ["c2"] [])], [],
       ⟨[], [("a", MTree.node ["c1"] []), ("b", MTree.node ["c2"] [])],
        [("a", MTree.node ["c1"] []), ("b", MTree.node ["c2"] [])], 0, []⟩⟩
      (MTree.node ["c1"] []) _ hlk (by simp)
      (by simpa [is_leaf_module, MTree.children, MTree.components] using herr)).1
  have hroot : generate_parent_module_docs (fun _ => none) "r" []
      (processLoop (fun _ _ _ => none) (fun _ => none) "r"
        [("a", MTree.node ["c1"] []), ("b", MTree.node ["c2"] [])]
        (get_processing_order
          [("a", MTree.node ["c1"] []), ("b", MTree.node ["c2"] [])] [])
        ⟨[("a", MTree.node ["c1"] []), ("b", MTree.node ["c2"] [])], [],
         ⟨[], [("a", MTree.node ["c1"] []), ("b", MTree.node ["c2"] [])],
          [("a", MTree.node ["c1"] []), ("b", MTree.node ["c2"] [])], 0, []⟩⟩).st =
      .error ⟨[], [("a", MTree.node ["c1"] []), ("b", MTree.node ["c2"] [])],
         [("a", MTree.node ["c1"] []), ("b", MTree.node ["c2"] [])], 3,
         [GenEvent.leafGen "a" ["c1"], GenEvent.leafGen "b" ["c2"],
          GenEvent.rootGen "r"]⟩ := by
    have hka : moduleKey ["a"] = "a" := rfl
    have hkb : moduleKey ["b"] = "b" := rfl
    have horder : get_processing_order
        [("a", MTree.node ["c1"] []), ("b", MTree.node ["c2"] [])] [] =
        [(["a"], "a"), (["b"], "b")] := by
      simp [get_processing_order, collect_modules]
    have h1 : loopStep (fun _ _ _ => none) (fun _ => none) "r"
        [("a", MTree.node ["c1"] []), ("b", MTree.node ["c2"] [])] (["a"], "a")
        ⟨[("a", MTree.node ["c1"] []), ("b", MTree.node ["c2"] [])], [],
         ⟨[], [("a", MTree.node ["c1"] []), ("b", MTree.node ["c2"] [])],
          [("a", MTree.node ["c1"] []), ("b", MTree.node ["c2"] [])], 0, []⟩⟩ =
        ⟨[("a", MTree.node ["c1"] []), ("b", MTree.node ["c2"] [])], [],
         ⟨[], [("a", MTree.node ["c1"] []), ("b", MTree.node ["c2"] [])],
          [("a", MTree.node ["c1"] []), ("b", MTree.node ["c2"] [])], 1,
          [GenEvent.leafGen "a" ["c1"]]⟩⟩ := by
      simp [loopStep, getAtPath, hka, is_leaf_module, process_module, fsExists,
        overviewFilename, MTree.components, MTree.children]
    have h2 : loopStep (fun _ _ _ => none) (fun _ => none) "r"
        [("a", MTree.node ["c1"] []), ("b", MTree.node ["c2"] [])] (["b"], "b")
        ⟨[("a", MTree.node ["c1"] []), ("b", MTree.node ["c2"] [])], [],
         ⟨[], [("a", MTree.node ["c1"] []), ("b", MTree.node ["c2"] [])],
          [("a", MTree.node ["c1"] []), ("b", MTree.node ["c2"] [])], 1,
          [GenEvent.leafGen "a" ["c1"]]⟩⟩ =
        ⟨[("a", MTree.node ["c1"] []), ("b", MTree.node ["c2"] [])], [],
         ⟨[], [("a", MTree.node ["c1"] []), ("b", MTree.node ["c2"] [])],
          [("a", MTree.node ["c1"] []), ("b", MTree.node ["c2"] [])], 2,
          [GenEvent.leafGen "a" ["c1"], GenEvent.leafGen "b" ["c2"]]⟩⟩ := by
      simp [loopStep, getAtPath, hkb, is_leaf_module, process_module, fsExists,
        overviewFilename, MTree.components, MTree.children, List.lookup]
    rw [horder]
    rw [show processLoop (fun _ _ _ => none) (fun _ => none) "r"
        [("a", MTree.node ["c1"] []), ("b", MTree.node ["c2"] [])]
        [(["a"], "a"), (["b"], "b")]
        ⟨[("a", MTree.node ["c1"] []), ("b", MTree.node ["c2"] [])], [],
         ⟨[], [("a", MTree.node ["c1"] []), ("b", MTree.node ["c2"] [])],
          [("a", MTree.node ["c1"] []), ("b", MTree.node ["c2"] [])], 0, []⟩⟩ =
        ⟨[("a", MTree.node ["c1"] []), ("b", MTree.node ["c2"] [])], [],
         ⟨[], [("a", MTree.node ["c1"] []), ("b", MTree.node ["c2"] [])],
          [("a", MTree.node ["c1"] []), ("b", MTree.node ["c2"] [])], 2,
          [GenEvent.leafGen "a" ["c1"], GenEvent.leafGen "b" ["c2"]]⟩⟩
      from by rw [processLoop, List.foldl_cons, h1, List.foldl_cons, h2]; rfl]
    simp [generate_parent_module_docs, fsExists, overviewFilename]
  have hdone := (C3_failure_partitioning (fun _ _ _ => none) (fun _ => none) "r" []
      ⟨[], [("a", MTree.node ["c1"] []), ("b", MTree.node ["c2"] [])],
       [("a", MTree.node ["c1"] []), ("b", MTree.node ["c2"] [])], 0, []⟩ hne1).2.1
      _ hroot
  have hne2 : ([("m", MTree.node ["c9"] [])] : Tree) ≠ [] := by simp
  have hroot2 : generate_parent_module_docs
      (fun _ => some "<OVERVIEW>fine</OVERVIEW>".toList) "root" []
      (processLoop
        (fun _ _ _ => some ⟨[("m", MTree.node ["c9"] [])], [("m.md", [('x' : Char)])]⟩)
        (fun _ => some "<OVERVIEW>fine</OVERVIEW>".toList) "root"
        [("m", MTree.node ["c9"] [])]
        (get_processing_order [("m", MTree.node ["c9"] [])] [])
        ⟨[("m", MTree.node ["c9"] [])], [],
         ⟨[], [("m", MTree.node ["c9"] [])], [("m", MTree.node ["c9"] [])], 0, []⟩⟩).st =
      .ok ([("m", MTree.node ["c9"] [])],
        ⟨[("overview.md", "fine".toList), ("m.md", [('x' : Char)])],
         [("m", MTree.node ["c9"] [])], [("m", MTree.node ["c9"] [])], 2,
         [GenEvent.leafGen "m" ["c9"], GenEvent.rootGen "root"]⟩) := by
    have hkm : moduleKey ["m"] = "m" := rfl
    simp [generate_parent_module_docs, processLoop, loopStep, getAtPath,
      get_processing_order, collect_modules, hkm, is_leaf_module,
      process_module, fsExists, fsWrite, fsWriteAll, overviewFilename,
      pyContains, findSplit, ovOpen, ovClose, extractOverview, segAfterFirst,
      beforeFirst, pyStrip, MTree.components, MTree.children]
  have hdone2 := (C3_failure_partitioning
      (fun _ _ _ => some ⟨[("m", MTree.node ["c9"] [])], [("m.md", [('x' : Char)])]⟩)
      (fun _ => some "<OVERVIEW>fine</OVERVIEW>".toList) "root" ["c9"]
      ⟨[], [("m", MTree.node ["c9"] [])], [("m", MTree.node ["c9"] [])], 0, []⟩
      hne2).2.2 _ _ hroot2
  exact ⟨⟨hne1, hlk, herr, hstep⟩, hdone, hdone2⟩

/-- C7: when the planning left zero top-level modules (whole component set
under the token budget), the Generation Driver skips the hierarchy: it
performs exactly one generation step, over all components, as a single
module named after the repository (one `leafGen repo_name leaf_nodes` event,
`genCalls` incremented once), saves the resulting tree, and renames the
artifact `{repo_name}.md` to the canonical overview artifact
`overview.md`. -/
theorem C7_flat_repo_single_step (agentOut : AgentOracle) (llmOut : LlmOracle)
    (repo_name : String) (leaf_nodes : List CompId) (st0 : GenState)
    (r : AgentResult)
    (hempty : st0.moduleTreeFile = [])
    (hov : fsExists st0.mdFiles overviewFilename = false)
    (hmd : fsExists st0.mdFiles (repo_name ++ ".md") = false)
    (hag : agentOut repo_name leaf_nodes [] = some r)
    (hw : fsExists (fsWriteAll st0.mdFiles r.files) (repo_name ++ ".md") = true) :
    generate_module_documentation agentOut llmOut repo_name leaf_nodes st0 =
      .ok (r.tree,
        ⟨fsRename (fsWriteAll st0.mdFiles r.files) (repo_name ++ ".md")
           overviewFilename,
         r.tree, st0.firstTreeFile, st0.genCalls + 1,
         st0.trace ++ [GenEvent.leafGen repo_name leaf_nodes]⟩) := by
  rw [generate_module_documentation]
  rw [if_neg (by simp [hempty])]
  rw [process_module]
  rw [if_neg (by simp [hov]), if_neg (by simp [hmd]), hag]
  dsimp only
  rw [if_pos (by simpa using hw)]

theorem C7_flat_repo_single_step_witness :
    (([] : Tree) = []) ∧
    fsExists ([] : List (String × Text)) overviewFilename = false ∧
    fsExists ([] : List (String × Text)) ("repo" ++ ".md") = false ∧
    fsExists (fsWriteAll []
      [("repo.md", "flat docs".toList)]) ("repo" ++ ".md") = true ∧
    generate_module_documentation
        (fun _ _ _ => some ⟨[("repo", MTree.node ["c1", "c2"] [])],
                            [("repo.md", "flat docs".toList)]⟩)
        (fun _ => none) "repo" ["c1", "c2"] ⟨[], [], [], 0, []⟩ =
      .ok ([("repo", MTree.node ["c1", "c2"] [])],
        ⟨fsRename (fsWriteAll [] [("repo.md", "flat docs".toList)])
           ("repo" ++ ".md") overviewFilename,
         [("repo", MTree.node ["c1", "c2"] [])], [], 0 + 1,
         [] ++ [GenEvent.leafGen "repo" ["c1", "c2"]]⟩) :=
  ⟨rfl, by decide, by decide, by decide,
   C7_flat_repo_single_step
     (fun _ _ _ => some ⟨[("repo", MTree.node ["c1", "c2"] [])],
                         [("repo.md", "flat docs".toList)]⟩)
     (fun _ => none) "repo" ["c1", "c2"] ⟨[], [], [], 0, []⟩
     ⟨[("repo", MTree.node ["c1", "c2"] [])], [("repo.md", "flat docs".toList)]⟩
     rfl (by decide) (by decide) rfl (by decide)⟩

end CodeWiki
